import Mathlib

/-!
Verification of the Socrata MCP tool gateway's core logic: the response
shaper (`formatResponse` / `truncateResponse`), the domain guard
(`validateDomain`), the merge engine for asset metadata and permissions,
the schedule resolver, and the `normalizeToCommaSeparated` input
normalizer.  Each definition is a shallow embedding of the corresponding
TypeScript function; JavaScript objects are modelled as ordered
association lists of fields, JavaScript `undefined`/absence as `Option`,
and JavaScript truthiness explicitly where the code relies on it.
-/

namespace Socrata

/-- JSON values as produced by the remote API and consumed by the tools.
JavaScript objects are ordered association lists (insertion order). -/
inductive Json where
  | null : Json
  | bool (b : Bool) : Json
  | num (n : Int) : Json
  | str (s : String) : Json
  | arr (xs : List Json) : Json
  | obj (fields : List (String × Json)) : Json

/-- JavaScript truthiness of a JSON value (`null`, `false`, `0`, `""` are
falsy; arrays and objects are always truthy). -/
def jsonTruthy : Json → Bool
  | .null => false
  | .bool b => b
  | .num n => n != 0
  | .str s => s != ""
  | .arr _ => true
  | .obj _ => true

/-- JavaScript `a || b` on JSON values. -/
def jsOr (a b : Json) : Json := if jsonTruthy a then a else b

/-- Property lookup on an association list (first match; JS objects have
unique keys). -/
def getField : List (String × Json) → String → Option Json
  | [], _ => none
  | (k, v) :: fs, key => if k = key then some v else getField fs key

/-- Property access `data.key` on a JSON value: `undefined` (`none`) unless
`data` is an object carrying the key. -/
def jget (data : Json) (key : String) : Option Json :=
  match data with
  | .obj fs => getField fs key
  | _ => none

/-- `data.key || dflt` : JavaScript default via truthiness, with absent
properties (`undefined`) falsy. -/
def jgetOr (data : Json) (key : String) (dflt : Json) : Json :=
  match jget data key with
  | some v => jsOr v dflt
  | none => dflt

/-- JavaScript property assignment `o[k] = v` on an object's field list:
overwrites in place when the key exists, appends otherwise. -/
def setField (fs : List (String × Json)) (key : String) (v : Json) :
    List (String × Json) :=
  if fs.any (fun p => p.1 = key) then
    fs.map (fun p => if p.1 = key then (key, v) else p)
  else fs ++ [(key, v)]

/-- The fields contributed by a JavaScript object spread `{...data}`:
an object's own fields, an array's index-keyed elements, nothing for
primitives. -/
def spreadFields : Json → List (String × Json)
  | .obj fs => fs
  | .arr xs => (List.range xs.length).zip xs |>.map (fun p => (toString p.1, p.2))
  | _ => []

/-! ### `JSON.stringify(data, null, 2)` -/

/-- Escape of a single character inside a JSON string literal
(as performed by `JSON.stringify`). -/
def escapeChar (c : Char) : String :=
  if c = '"' then "\\\""
  else if c = '\\' then "\\\\"
  else if c = '\n' then "\\n"
  else if c = '\r' then "\\r"
  else if c = '\t' then "\\t"
  else if c = '\x08' then "\\b"
  else if c = '\x0c' then "\\f"
  else String.singleton c

/-- Escape a character list into the body of a JSON string literal. -/
def escList : List Char → String
  | [] => ""
  | c :: cs => escapeChar c ++ escList cs

/-- Escape a string into the body of a JSON string literal. -/
def jsonEscape (s : String) : String := escList s.data

/-- Indentation of `JSON.stringify(_, null, 2)` at nesting depth `d`. -/
def indentStr (d : Nat) : String := String.mk (List.replicate (2 * d) ' ')

mutual

/-- `JSON.stringify(v, null, 2)` at nesting depth `d`. -/
def stringifyAux : Nat → Json → String
  | _, .null => "null"
  | _, .bool true => "true"
  | _, .bool false => "false"
  | _, .num n => toString n
  | _, .str s => "\"" ++ jsonEscape s ++ "\""
  | d, .arr xs =>
    match xs with
    | [] => "[]"
    | x :: rest =>
      "[\n" ++ stringifyItems (d + 1) x rest ++ "\n" ++ indentStr d ++ "]"
  | d, .obj fs =>
    match fs with
    | [] => "\x7b\x7d"
    | f :: rest =>
      "\x7b\n" ++ stringifyEntries (d + 1) f rest ++ "\n" ++ indentStr d ++ "\x7d"
termination_by d j => sizeOf j
decreasing_by all_goals (simp_wf <;> omega)

/-- Comma-and-newline separated array items, each indented at depth `d`. -/
def stringifyItems : Nat → Json → List Json → String
  | d, x, [] => indentStr d ++ stringifyAux d x
  | d, x, y :: rest =>
    indentStr d ++ stringifyAux d x ++ ",\n" ++ stringifyItems d y rest
termination_by d x rest => 1 + sizeOf x + sizeOf rest
decreasing_by all_goals (simp_wf <;> omega)

/-- Comma-and-newline separated object entries, each indented at depth `d`. -/
def stringifyEntries : Nat → (String × Json) → List (String × Json) → String
  | d, (k, v), [] => indentStr d ++ "\"" ++ jsonEscape k ++ "\": " ++ stringifyAux d v
  | d, (k, v), g :: rest =>
    indentStr d ++ "\"" ++ jsonEscape k ++ "\": " ++ stringifyAux d v ++ ",\n" ++
      stringifyEntries d g rest
termination_by d f rest => 1 + sizeOf f + sizeOf rest
decreasing_by all_goals (simp_wf <;> omega)

end

/-- `JSON.stringify(data, null, 2)` as used throughout the gateway. -/
def stringify (data : Json) : String := stringifyAux 0 data

/-! ### Response shaping: `truncateResponse` and `formatResponse`
(src/utils/socrata-utils.ts) -/

/-- `CHARACTER_LIMIT` from src/utils/socrata-utils.ts. -/
def CHARACTER_LIMIT : Nat := 25000

/-- `truncateResponse(data, limit)`: return `data` unchanged when its
pretty serialization fits in `limit` characters; otherwise return the
marker object `{...data, _truncated: true, _message: ...}`.  (The local
`truncated` substring computed by the source is dead code and is not part
of the returned value.) -/
def truncateResponse (data : Json) (limit : Nat) : Json :=
  let jsonString := stringify data
  if jsonString.length ≤ limit then data
  else
    .obj (setField
      (setField (spreadFields data) "_truncated" (.bool true))
      "_message"
      (.str ("Response truncated at " ++ toString limit ++
        " characters. Original length: " ++ toString jsonString.length)))

/-- The `detail` level of `FormatOptions`. -/
inductive Detail where
  | concise
  | detailed
deriving DecidableEq, Repr

/-- The five fields kept by the concise projection, in literal order. -/
def conciseKeys : List String := ["id", "name", "title", "description", "domain"]

/-- Is the value a JavaScript object in the `typeof item === 'object' &&
item !== null` sense (arrays included)? -/
def isObjectLike : Json → Bool
  | .obj _ => true
  | .arr _ => true
  | _ => false

/-- The concise projection of one array element: for object-like values,
the object `{id, name, title, description, domain}` built from the
element's properties (absent properties are `undefined` and disappear
from the serialized JSON, so only the present ones are kept); other
values pass through unchanged. -/
def projectConcise (item : Json) : Json :=
  if isObjectLike item then
    .obj (conciseKeys.filterMap (fun k =>
      (jget item k).map (fun v => (k, v))))
  else item

/-- The detail-projection step of `formatResponse`: applies the concise
projection elementwise when `data` is an array and `detail` is concise. -/
def detailStep (detail : Detail) (data : Json) : Json :=
  match detail, data with
  | .concise, .arr xs => .arr (xs.map projectConcise)
  | _, _ => data

/-- `formatResponse(data, {detail})`: concise projection (arrays only)
followed by `truncateResponse` at the default character limit. -/
def formatResponse (data : Json) (detail : Detail) : Json :=
  truncateResponse (detailStep detail data) CHARACTER_LIMIT

/-! ### Domain guard: `validateDomain` (src/utils/socrata-utils.ts) -/

/-- The error thrown by `validateDomain`, carrying the rejected domain and
the configured allowlist (both appear in the thrown message). -/
structure DomainNotAllowed where
  domain : String
  allowedDomains : List String
deriving DecidableEq, Repr

/-- The message of the `validateDomain` error. -/
def domainErrorMessage (e : DomainNotAllowed) : String :=
  "Domain \"" ++ e.domain ++ "\" is not in the allowlist. Allowed domains: " ++
    String.intercalate ", " e.allowedDomains

/-- `validateDomain(domain)` with the configured allowlist made explicit:
fails iff the allowlist is non-empty and does not contain the exact
domain string. -/
def validateDomain (allowed : List String) (domain : String) :
    Except DomainNotAllowed Unit :=
  if allowed.length > 0 && !(allowed.contains domain) then
    .error ⟨domain, allowed⟩
  else .ok ()

/-! ### `normalizeToCommaSeparated` (src/utils/socrata-utils.ts) -/

/-- The `string[] | string` union accepted by the search tools. -/
inductive StrOrList where
  | str (s : String)
  | list (l : List String)
deriving DecidableEq, Repr

/-- `normalizeToCommaSeparated(value)`: `undefined` and falsy values
(the empty string) map to `undefined`; an array maps to its comma join
when non-empty and to `undefined` when empty; other strings pass
through. -/
def normalizeToCommaSeparated : Option StrOrList → Option String
  | none => none
  | some v =>
    -- `if (!value) return undefined` : among the inputs only the empty
    -- string is falsy (arrays are always truthy)
    match v with
    | .str s => if s = "" then none else some s
    | .list l => if l.length > 0 then some (String.intercalate "," l) else none

/-- `if (param) url.searchParams.append(key, param)` : append a query
parameter only when the normalized value is truthy. -/
def appendIfTruthy (ps : List (String × String)) (key : String)
    (v : Option String) : List (String × String) :=
  match v with
  | some s => if s = "" then ps else ps ++ [(key, s)]
  | none => ps

/-- `if (b !== undefined) url.searchParams.append(key, b ? 't' : 'f')`. -/
def appendBoolParam (ps : List (String × String)) (key : String)
    (b : Option Bool) : List (String × String) :=
  match b with
  | some x => ps ++ [(key, if x then "t" else "f")]
  | none => ps

/-- The query parameters built by `userSearchTool`'s handler
(dist/tools/user-tools.js), after `validateDomain` succeeds. -/
def userSearchParams (domain : String) (ids emails roles : Option StrOrList)
    (disabled future : Option Bool) (limit offset : Nat) :
    List (String × String) :=
  let ps := [("domain", domain)]
  let ps := appendIfTruthy ps "ids" (normalizeToCommaSeparated ids)
  let ps := appendIfTruthy ps "emails" (normalizeToCommaSeparated emails)
  let ps := appendIfTruthy ps "roles" (normalizeToCommaSeparated roles)
  let ps := appendBoolParam ps "disabled" disabled
  let ps := appendBoolParam ps "future" future
  ps ++ [("limit", toString limit), ("offset", toString offset)]

/-! ### Merge engine: permissions (src/unnamed/part_005, `assetPermissionsUpdateTool`) -/

/-- One access level `{name, version}` of a user grant. -/
structure AccessLevel where
  name : String
  version : String
deriving DecidableEq, Repr

/-- A user grant `{id?, email?, accessLevels}`; `none` models an absent
property. -/
structure UserGrant where
  id : Option String
  email : Option String
  accessLevels : List AccessLevel
deriving DecidableEq, Repr

/-- JavaScript truthiness of an optional string property: absent and empty
strings are falsy. -/
def optTruthy : Option String → Bool
  | none => false
  | some s => s != ""

/-- `(a || b)` on optional string properties. -/
def strOr (a b : Option String) : Option String :=
  if optTruthy a then a else b

/-- The `findIndex` predicate of the user merge:
`(newUser.id && u.id === newUser.id) || (newUser.email && u.email ===
newUser.email)`. -/
def grantMatches (newUser u : UserGrant) : Bool :=
  (optTruthy newUser.id && u.id == newUser.id) ||
    (optTruthy newUser.email && u.email == newUser.email)

/-- JavaScript `Array.prototype.findIndex`, with `-1` modelled as `none`. -/
def findIndex (p : α → Bool) : List α → Option Nat
  | [] => none
  | a :: l => if p a then some 0 else (findIndex p l).map (· + 1)

/-- The shallow merge `{...u, ...newUser}` of two grants: properties
present on `newUser` win (`accessLevels` is always present on an incoming
grant, so it always wins). -/
def mergeGrant (u newUser : UserGrant) : UserGrant :=
  ⟨newUser.id <|> u.id, newUser.email <|> u.email, newUser.accessLevels⟩

/-- One iteration of the merge loop: look the incoming grant up in the
*pre-merge* list `existingUsers`; on a match overwrite that position of
the working list `updatedUsers` with the shallow merge, otherwise push the
incoming grant at the end. -/
def upsertOne (existingUsers : List UserGrant) (updatedUsers : List UserGrant)
    (newUser : UserGrant) : List UserGrant :=
  match findIndex (grantMatches newUser) existingUsers with
  | some i =>
    match updatedUsers[i]? with
    | some old => updatedUsers.set i (mergeGrant old newUser)
    | none => updatedUsers
  | none => updatedUsers ++ [newUser]

/-- The whole `replaceUsers=false` merge loop: fold the incoming grants
over a working copy of the existing list. -/
def upsertUsers (existingUsers newUsers : List UserGrant) : List UserGrant :=
  newUsers.foldl (upsertOne existingUsers) existingUsers

/-- The permission document `{scope?, users?}` (other remote fields are
carried through untouched by the handler and are not modelled). -/
structure PermissionDocument where
  scope : Option String
  users : Option (List UserGrant)
deriving DecidableEq, Repr

/-- The merge step of `assetPermissionsUpdateTool`: copy the current
document, overwrite `scope` when the patch's scope is truthy, and when a
`users` patch is present either replace the list (`replaceUsers=true`) or
upsert it grant by grant (`replaceUsers=false`, with absent current
`users` read as `[]` via `updatedPermissions.users || []`). -/
def mergePermissions (current : PermissionDocument) (scope : Option String)
    (users : Option (List UserGrant)) (replaceUsers : Bool) :
    PermissionDocument :=
  let updated : PermissionDocument :=
    if optTruthy scope then ⟨scope, current.users⟩ else current
  match users with
  | none => updated
  | some us =>
    if replaceUsers then ⟨updated.scope, some us⟩
    else ⟨updated.scope, some (upsertUsers (updated.users.getD []) us)⟩

/-! ### Merge engine: metadata (src/unnamed/part_005, `assetMetadataUpdateTool`) -/

/-- The sparse patch accepted by `assetMetadataUpdateTool`; `none` models
an argument that was not supplied (`undefined`). -/
structure MetadataPatch where
  name : Option String
  description : Option String
  tags : Option (List String)
  category : Option String
  attribution : Option String
  license : Option String
deriving DecidableEq, Repr

/-- `if (x !== undefined) updatedMetadata.k = x` : assign the field only
when the patch value is defined. -/
def applyIfSome (fs : List (String × Json)) (key : String) (v : Option Json) :
    List (String × Json) :=
  match v with
  | some x => setField fs key x
  | none => fs

/-- The names of the six patchable metadata fields. -/
def metadataPatchKeys : List String :=
  ["name", "description", "tags", "category", "attribution", "license"]

/-- The merge step of `assetMetadataUpdateTool`: shallow-copy the fetched
current document, then assign each defined patch field. -/
def mergeMetadata (current : List (String × Json)) (p : MetadataPatch) :
    List (String × Json) :=
  let fs := applyIfSome current "name" (p.name.map Json.str)
  let fs := applyIfSome fs "description" (p.description.map Json.str)
  let fs := applyIfSome fs "tags" (p.tags.map (fun ts => Json.arr (ts.map Json.str)))
  let fs := applyIfSome fs "category" (p.category.map Json.str)
  let fs := applyIfSome fs "attribution" (p.attribution.map Json.str)
  applyIfSome fs "license" (p.license.map Json.str)

/-! ### Schedule resolver (src/tools/publishing-tools.ts) -/

/-- Is the JSON value exactly the given string (JavaScript `===` against a
string literal)? -/
def jsonIsStr (j : Json) (s : String) : Bool :=
  match j with
  | .str t => t == s
  | _ => false

/-- A catalog search result, flattened: `resourceType` stands for
`asset.resource?.type`, etc.; `none` models an absent property. -/
structure Asset where
  resourceType : Option String
  resourceName : Option String
  resourceId : Option String
  classificationCategory : Option String
  name : Option String
  id : Option String
deriving DecidableEq, Repr

/-- `asset.resource?.type === 'dataset' ||
asset.classification?.domain_category === 'dataset'`. -/
def isDatasetAsset (a : Asset) : Bool :=
  a.resourceType == some "dataset" || a.classificationCategory == some "dataset"

/-- String interpolation `${x}` of a possibly-undefined value. -/
def optToStr : Option String → String
  | some s => s
  | none => "undefined"

/-- The `dataset` descriptor of a `ScheduleSummary`; `none` models a
property whose value is `undefined` (dropped by serialization). -/
structure DatasetInfo where
  name : Option Json
  fxf : Option Json

/-- The extracted `schedule` record of `formatScheduleResponse`, with the
source's `||` defaults already applied. -/
structure ScheduleInfo where
  cadence : Json
  status : Json
  enabled : Json
  lastRun : Json
  nextRun : Json
  rowCount : Json
  owner : Json
  frequency : Json
  timezone : Json

/-- The meaningful-schedule extraction of `formatScheduleResponse`. -/
def extractSchedule (d : Json) : ScheduleInfo :=
  ⟨jgetOr d "cadence" (.str "Manual/None"),
   jgetOr d "status" (.str "Unknown"),
   jgetOr d "enabled" (.bool false),
   jgetOr d "lastRun" .null,
   jgetOr d "nextRun" .null,
   jgetOr d "rowCount" (.num 0),
   jgetOr d "owner" (.str "Unknown"),
   jgetOr d "frequency" .null,
   jgetOr d "timezone" .null⟩

/-- `generateScheduleSummary(schedule)`, with date rendering
(`new Date(x).toLocaleDateString()`) abstracted as the oracle `fmtDate`.
Calling `.toLowerCase()` on a truthy non-string cadence throws in the
source; that is modelled as the `.error` case. -/
def generateScheduleSummary (fmtDate : Json → String) (s : ScheduleInfo) :
    Except String String :=
  if !(jsonTruthy s.enabled) || jsonIsStr s.cadence "Manual/None" then
    .ok "Dataset is updated manually - no automated publishing schedule"
  else if jsonTruthy s.cadence && !(jsonIsStr s.cadence "Manual/None") then
    match s.cadence with
    | .str c =>
      let lastUpdate := if jsonTruthy s.lastRun then fmtDate s.lastRun else "Unknown"
      let nextUpdate := if jsonTruthy s.nextRun then fmtDate s.nextRun else "Not scheduled"
      .ok ("Updates " ++ c.toLower ++ ", last updated: " ++ lastUpdate ++
        ", next update: " ++ nextUpdate)
    | _ => .error "schedule.cadence.toLowerCase is not a function"
  else
    .ok "Schedule information available but status unclear"

/-- One schedule summary `{dataset, schedule, summary?, error?}`. -/
structure ScheduleSummary where
  dataset : DatasetInfo
  schedule : Option ScheduleInfo
  summary : Option String
  error : Option String

/-- `formatScheduleResponse(scheduleData, assetInfo?)`: falsy payloads
produce a no-schedule summary with an `error` message; truthy payloads
produce an extracted schedule plus a derived human-readable `summary`
(failing when summary generation throws). -/
def formatScheduleResponse (fmtDate : Json → String) (scheduleData : Json)
    (assetInfo : Option DatasetInfo) : Except String ScheduleSummary :=
  if !(jsonTruthy scheduleData) then
    .ok ⟨assetInfo.getD ⟨some (.str "Unknown"), some (.str "Unknown")⟩,
         none, none,
         some "No schedule data available - dataset may not have automated publishing"⟩
  else
    let schedule := extractSchedule scheduleData
    match generateScheduleSummary fmtDate schedule with
    | .error e => .error e
    | .ok summary =>
      .ok ⟨assetInfo.getD
             ⟨some (jgetOr scheduleData "name" (.str "Unknown")),
              some (jgetOr scheduleData "fxf" (.str "Unknown"))⟩,
           some schedule, some summary, none⟩

/-- The per-dataset step of the search mode: fetch and format the match's
schedule inside a `try`, turning any failure into an error summary for
that item alone. -/
def scheduleItem (sched : String → Except String Json) (fmtDate : Json → String)
    (asset : Asset) : ScheduleSummary :=
  let nm := strOr asset.resourceName asset.name
  let fx := strOr asset.resourceId asset.id
  let ds : DatasetInfo := ⟨nm.map Json.str, fx.map Json.str⟩
  match sched (optToStr fx) with
  | .ok data =>
    match formatScheduleResponse fmtDate data (some ds) with
    | .ok s => s
    | .error e => ⟨ds, none, none, some ("Unable to fetch schedule: " ++ e)⟩
  | .error e => ⟨ds, none, none, some ("Unable to fetch schedule: " ++ e)⟩

/-- The errors the schedule resolver can fail with. -/
inductive ResolveError where
  | invalidArguments
  | domainNotAllowed (e : DomainNotAllowed)
  | remote (msg : String)
  | noMatch (assetName : String)
  | wrongAssetType (assetName : String) (actualType : String)

/-- The resolver's result: a single summary (direct mode, or search mode
with exactly one match) or an ordered sequence. -/
inductive ResolveResult where
  | single (s : ScheduleSummary)
  | many (l : List ScheduleSummary)

/-- `catalogResponse[0]?.resource?.type ||
catalogResponse[0]?.classification?.domain_category || 'asset'`. -/
def firstAssetType (results : List Asset) : String :=
  optToStr (strOr (strOr (results.head?.bind (·.resourceType))
    (results.head?.bind (·.classificationCategory))) (some "asset"))

/-- The handler of `publishingScheduleGetTool`, with the remote calls
(`searchCatalog`, `getSchedule`) and date rendering abstracted as
oracles.  The argument check precedes domain validation; a truthy `fxf`
takes the direct path; otherwise the truthy `assetName` drives a catalog
search, dataset filtering, and the per-match schedule loop. -/
def resolveSchedule (allowed : List String)
    (catalog : String → Except String (List Asset))
    (sched : String → Except String Json)
    (fmtDate : Json → String)
    (domain : String) (fxf assetName : Option String) :
    Except ResolveError ResolveResult :=
  if !(optTruthy fxf) && !(optTruthy assetName) then
    .error .invalidArguments
  else
    match validateDomain allowed domain with
    | .error e => .error (.domainNotAllowed e)
    | .ok _ =>
      if optTruthy fxf then
        match sched (optToStr fxf) with
        | .error e => .error (.remote e)
        | .ok data =>
          match formatScheduleResponse fmtDate data none with
          | .error e => .error (.remote e)
          | .ok s => .ok (.single s)
      else
        match catalog (optToStr assetName) with
        | .error e => .error (.remote e)
        | .ok results =>
          if results.length = 0 then
            .error (.noMatch (optToStr assetName))
          else
            let datasetAssets := results.filter isDatasetAsset
            if datasetAssets.length = 0 then
              .error (.wrongAssetType (optToStr assetName) (firstAssetType results))
            else
              let summaries := datasetAssets.map (scheduleItem sched fmtDate)
              .ok (match summaries with
                   | [s] => .single s
                   | _ => .many summaries)

/-! ### Helper lemmas -/

theorem getField_eq_none_of_not_any (fs : List (String × Json)) (key : String)
    (h : fs.any (fun p => p.1 = key) = false) : getField fs key = none := by
  induction fs with
  | nil => rfl
  | cons f t ih =>
    simp only [List.any_cons, Bool.or_eq_false_iff, decide_eq_false_iff_not] at h
    obtain ⟨h1, h2⟩ := h
    obtain ⟨k, v⟩ := f
    simp only [getField, if_neg h1]
    exact ih h2

theorem getField_append (fs gs : List (String × Json)) (key : String) :
    getField (fs ++ gs) key =
      match getField fs key with
      | some v => some v
      | none => getField gs key := by
  induction fs with
  | nil => rfl
  | cons f t ih =>
    obtain ⟨k, v⟩ := f
    by_cases h : k = key
    · simp [getField, h]
    · simp [getField, h, ih]

theorem getField_mapSet_self (fs : List (String × Json)) (key : String)
    (v : Json) (h : fs.any (fun p => p.1 = key) = true) :
    getField (fs.map (fun p => if p.1 = key then (key, v) else p)) key = some v := by
  induction fs with
  | nil => simp at h
  | cons f t ih =>
    obtain ⟨k, w⟩ := f
    by_cases hk : k = key
    · have hmap : List.map (fun p => if p.1 = key then (key, v) else p)
          (((k, w) : String × Json) :: t)
          = (key, v) :: List.map (fun p => if p.1 = key then (key, v) else p) t := by
        simp [hk]
      rw [hmap]
      simp [getField]
    · have hmap : List.map (fun p => if p.1 = key then (key, v) else p)
          (((k, w) : String × Json) :: t)
          = (k, w) :: List.map (fun p => if p.1 = key then (key, v) else p) t := by
        simp [hk]
      rw [hmap]
      simp only [getField, if_neg hk]
      simp only [List.any_cons, Bool.or_eq_true, decide_eq_true_eq] at h
      rcases h with h | h
      · exact absurd h hk
      · exact ih h

theorem getField_mapSet_ne (fs : List (String × Json)) (key key' : String)
    (v : Json) (h : key' ≠ key) :
    getField (fs.map (fun p => if p.1 = key then (key, v) else p)) key'
      = getField fs key' := by
  induction fs with
  | nil => rfl
  | cons f t ih =>
    obtain ⟨k, w⟩ := f
    by_cases hk : k = key
    · have hmap : List.map (fun p => if p.1 = key then (key, v) else p)
          (((k, w) : String × Json) :: t)
          = (key, v) :: List.map (fun p => if p.1 = key then (key, v) else p) t := by
        simp [hk]
      rw [hmap]
      simp only [getField]
      rw [if_neg (fun hh => h hh.symm), if_neg (fun hh => h ((hk.symm.trans hh).symm))]
      exact ih
    · have hmap : List.map (fun p => if p.1 = key then (key, v) else p)
          (((k, w) : String × Json) :: t)
          = (k, w) :: List.map (fun p => if p.1 = key then (key, v) else p) t := by
        simp [hk]
      rw [hmap]
      by_cases hk' : k = key'
      · simp [getField, hk']
      · simp only [getField, if_neg hk']
        exact ih

theorem getField_setField_self (fs : List (String × Json)) (key : String)
    (v : Json) : getField (setField fs key v) key = some v := by
  unfold setField
  by_cases h : fs.any (fun p => p.1 = key) = true
  · rw [if_pos h]
    exact getField_mapSet_self fs key v h
  · rw [if_neg h]
    rw [getField_append]
    have hfalse : fs.any (fun p => p.1 = key) = false := by
      cases hx : fs.any (fun p => p.1 = key) with
      | true => exact absurd hx h
      | false => rfl
    rw [getField_eq_none_of_not_any fs key hfalse]
    simp [getField]

theorem getField_setField_ne (fs : List (String × Json)) (key key' : String)
    (v : Json) (h : key' ≠ key) :
    getField (setField fs key v) key' = getField fs key' := by
  unfold setField
  by_cases ha : fs.any (fun p => p.1 = key) = true
  · rw [if_pos ha]
    exact getField_mapSet_ne fs key key' v h
  · rw [if_neg ha]
    rw [getField_append]
    cases hf : getField fs key' with
    | some w => rfl
    | none =>
      show getField [(key, v)] key' = none
      simp only [getField]
      rw [if_neg (fun hh => h hh.symm)]

theorem getField_applyIfSome_ne (fs : List (String × Json)) (key key' : String)
    (v : Option Json) (h : key' ≠ key) :
    getField (applyIfSome fs key v) key' = getField fs key' := by
  cases v with
  | none => rfl
  | some x => exact getField_setField_ne fs key key' x h

theorem getField_applyIfSome_some (fs : List (String × Json)) (key : String)
    (x : Json) : getField (applyIfSome fs key (some x)) key = some x :=
  getField_setField_self fs key x

/-! ### Claim theorems -/

/-- C9: `validateDomain` succeeds for every domain when the allowlist is
empty; with a non-empty allowlist it succeeds exactly on exact
case-sensitive members and otherwise fails with the error carrying the
rejected domain and the full allowed set. -/
theorem validateDomain_spec (allowed : List String) (D : String) :
    (allowed = [] → validateDomain allowed D = .ok ()) ∧
    (allowed ≠ [] → D ∈ allowed → validateDomain allowed D = .ok ()) ∧
    (allowed ≠ [] → D ∉ allowed →
      validateDomain allowed D = .error ⟨D, allowed⟩) := by
  refine ⟨?_, ?_, ?_⟩
  · intro h
    subst h
    rfl
  · intro _ hmem
    have hc : allowed.contains D = true := List.elem_eq_true_of_mem hmem
    unfold validateDomain
    rw [hc]
    simp
  · intro hne hmem
    have hc : allowed.contains D = false := by
      cases hx : allowed.contains D with
      | true => exact absurd (List.mem_of_elem_eq_true hx) hmem
      | false => rfl
    have hlen : 0 < allowed.length := List.length_pos.mpr hne
    unfold validateDomain
    rw [hc]
    simp [hlen]

/-- C9 witness: allowlist `["data.x.org"]` accepts `"data.x.org"` and
rejects `"data.y.org"` with the diagnostic error. -/
theorem validateDomain_spec_witness :
    validateDomain ["data.x.org"] "data.x.org" = .ok () ∧
    validateDomain ["data.x.org"] "data.y.org"
      = .error ⟨"data.y.org", ["data.x.org"]⟩ :=
  ⟨(validateDomain_spec ["data.x.org"] "data.x.org").2.1 (by decide) (by decide),
   (validateDomain_spec ["data.x.org"] "data.y.org").2.2 (by decide) (by decide)⟩

/-- C5: with `replaceUsers = true` and a `users` patch present, the merged
document's users list is exactly the patch's list — including the empty
list, which is not guarded against. -/
theorem mergePermissions_replaceUsers (current : PermissionDocument)
    (scope : Option String) (us : List UserGrant) :
    (mergePermissions current scope (some us) true).users = some us ∧
    (mergePermissions current scope (some []) true).users = some [] := by
  constructor <;> (unfold mergePermissions; split <;> rfl)

theorem applyIfSome_none (fs : List (String × Json)) (key : String) :
    applyIfSome fs key none = fs := rfl

/-- C4: `updateMetadata`'s merge is a sparse partial update: every key
outside the six patchable fields keeps its current value, each patchable
field is overwritten exactly when the patch defines it, and an undefined
patch field leaves the current value untouched. -/
theorem mergeMetadata_spec (current : List (String × Json)) (p : MetadataPatch) :
    (∀ k, k ∉ metadataPatchKeys →
      getField (mergeMetadata current p) k = getField current k) ∧
    ((∀ v, p.name = some v →
        getField (mergeMetadata current p) "name" = some (.str v)) ∧
     (p.name = none →
        getField (mergeMetadata current p) "name" = getField current "name")) ∧
    ((∀ v, p.description = some v →
        getField (mergeMetadata current p) "description" = some (.str v)) ∧
     (p.description = none →
        getField (mergeMetadata current p) "description"
          = getField current "description")) ∧
    ((∀ v, p.tags = some v →
        getField (mergeMetadata current p) "tags"
          = some (.arr (v.map Json.str))) ∧
     (p.tags = none →
        getField (mergeMetadata current p) "tags" = getField current "tags")) ∧
    ((∀ v, p.category = some v →
        getField (mergeMetadata current p) "category" = some (.str v)) ∧
     (p.category = none →
        getField (mergeMetadata current p) "category"
          = getField current "category")) ∧
    ((∀ v, p.attribution = some v →
        getField (mergeMetadata current p) "attribution" = some (.str v)) ∧
     (p.attribution = none →
        getField (mergeMetadata current p) "attribution"
          = getField current "attribution")) ∧
    ((∀ v, p.license = some v →
        getField (mergeMetadata current p) "license" = some (.str v)) ∧
     (p.license = none →
        getField (mergeMetadata current p) "license"
          = getField current "license")) := by
  unfold mergeMetadata
  refine ⟨?_, ⟨?_, ?_⟩, ⟨?_, ?_⟩, ⟨?_, ?_⟩, ⟨?_, ?_⟩, ⟨?_, ?_⟩, ⟨?_, ?_⟩⟩
  · intro k hk
    simp only [metadataPatchKeys, List.mem_cons, List.not_mem_nil, or_false] at hk
    push_neg at hk
    obtain ⟨h1, h2, h3, h4, h5, h6⟩ := hk
    rw [getField_applyIfSome_ne _ "license" k _ h6,
      getField_applyIfSome_ne _ "attribution" k _ h5,
      getField_applyIfSome_ne _ "category" k _ h4,
      getField_applyIfSome_ne _ "tags" k _ h3,
      getField_applyIfSome_ne _ "description" k _ h2,
      getField_applyIfSome_ne _ "name" k _ h1]
  · intro v hv
    rw [getField_applyIfSome_ne _ "license" "name" _ (by decide),
      getField_applyIfSome_ne _ "attribution" "name" _ (by decide),
      getField_applyIfSome_ne _ "category" "name" _ (by decide),
      getField_applyIfSome_ne _ "tags" "name" _ (by decide),
      getField_applyIfSome_ne _ "description" "name" _ (by decide), hv]
    exact getField_applyIfSome_some _ _ _
  · intro hv
    rw [hv]
    simp only [Option.map_none', applyIfSome_none]
    rw [getField_applyIfSome_ne _ "license" "name" _ (by decide),
      getField_applyIfSome_ne _ "attribution" "name" _ (by decide),
      getField_applyIfSome_ne _ "category" "name" _ (by decide),
      getField_applyIfSome_ne _ "tags" "name" _ (by decide),
      getField_applyIfSome_ne _ "description" "name" _ (by decide)]
  · intro v hv
    rw [getField_applyIfSome_ne _ "license" "description" _ (by decide),
      getField_applyIfSome_ne _ "attribution" "description" _ (by decide),
      getField_applyIfSome_ne _ "category" "description" _ (by decide),
      getField_applyIfSome_ne _ "tags" "description" _ (by decide), hv]
    exact getField_applyIfSome_some _ _ _
  · intro hv
    rw [hv]
    simp only [Option.map_none', applyIfSome_none]
    rw [getField_applyIfSome_ne _ "license" "description" _ (by decide),
      getField_applyIfSome_ne _ "attribution" "description" _ (by decide),
      getField_applyIfSome_ne _ "category" "description" _ (by decide),
      getField_applyIfSome_ne _ "tags" "description" _ (by decide),
      getField_applyIfSome_ne _ "name" "description" _ (by decide)]
  · intro v hv
    rw [getField_applyIfSome_ne _ "license" "tags" _ (by decide),
      getField_applyIfSome_ne _ "attribution" "tags" _ (by decide),
      getField_applyIfSome_ne _ "category" "tags" _ (by decide), hv]
    exact getField_applyIfSome_some _ _ _
  · intro hv
    rw [hv]
    simp only [Option.map_none', applyIfSome_none]
    rw [getField_applyIfSome_ne _ "license" "tags" _ (by decide),
      getField_applyIfSome_ne _ "attribution" "tags" _ (by decide),
      getField_applyIfSome_ne _ "category" "tags" _ (by decide),
      getField_applyIfSome_ne _ "description" "tags" _ (by decide),
      getField_applyIfSome_ne _ "name" "tags" _ (by decide)]
  · intro v hv
    rw [getField_applyIfSome_ne _ "license" "category" _ (by decide),
      getField_applyIfSome_ne _ "attribution" "category" _ (by decide), hv]
    exact getField_applyIfSome_some _ _ _
  · intro hv
    rw [hv]
    simp only [Option.map_none', applyIfSome_none]
    rw [getField_applyIfSome_ne _ "license" "category" _ (by decide),
      getField_applyIfSome_ne _ "attribution" "category" _ (by decide),
      getField_applyIfSome_ne _ "tags" "category" _ (by decide),
      getField_applyIfSome_ne _ "description" "category" _ (by decide),
      getField_applyIfSome_ne _ "name" "category" _ (by decide)]
  · intro v hv
    rw [getField_applyIfSome_ne _ "license" "attribution" _ (by decide), hv]
    exact getField_applyIfSome_some _ _ _
  · intro hv
    rw [hv]
    simp only [Option.map_none', applyIfSome_none]
    rw [getField_applyIfSome_ne _ "license" "attribution" _ (by decide),
      getField_applyIfSome_ne _ "category" "attribution" _ (by decide),
      getField_applyIfSome_ne _ "tags" "attribution" _ (by decide),
      getField_applyIfSome_ne _ "description" "attribution" _ (by decide),
      getField_applyIfSome_ne _ "name" "attribution" _ (by decide)]
  · intro v hv
    rw [hv]
    exact getField_applyIfSome_some _ _ _
  · intro hv
    rw [hv]
    simp only [Option.map_none', applyIfSome_none]
    rw [getField_applyIfSome_ne _ "attribution" "license" _ (by decide),
      getField_applyIfSome_ne _ "category" "license" _ (by decide),
      getField_applyIfSome_ne _ "tags" "license" _ (by decide),
      getField_applyIfSome_ne _ "description" "license" _ (by decide),
      getField_applyIfSome_ne _ "name" "license" _ (by decide)]

/-- C4 witness: current `{name:"A", description:"d"}`, patch `{name:"B"}`
gives merged `{name:"B", description:"d"}` — the omitted description is
untouched. -/
theorem mergeMetadata_spec_witness :
    getField (mergeMetadata [("name", .str "A"), ("description", .str "d")]
      ⟨some "B", none, none, none, none, none⟩) "name" = some (.str "B") ∧
    getField (mergeMetadata [("name", .str "A"), ("description", .str "d")]
      ⟨some "B", none, none, none, none, none⟩) "description"
      = getField [("name", Json.str "A"), ("description", Json.str "d")]
          "description" :=
  ⟨(mergeMetadata_spec _ _).2.1.1 "B" rfl,
   (mergeMetadata_spec _ _).2.2.1.2 rfl⟩

theorem appendIfTruthy_some (ps : List (String × String)) (key s : String) :
    appendIfTruthy ps key (some s)
      = if s = "" then ps else ps ++ [(key, s)] := rfl

theorem normalizeToCommaSeparated_str (s : String) :
    normalizeToCommaSeparated (some (.str s))
      = if s = "" then none else some s := rfl

theorem normalizeToCommaSeparated_list (l : List String) :
    normalizeToCommaSeparated (some (.list l))
      = if l.length > 0 then some (String.intercalate "," l) else none := rfl

theorem mem_appendIfTruthy (ps : List (String × String)) (key : String)
    (v : Option String) (q : String × String)
    (h : q ∈ appendIfTruthy ps key v) : q ∈ ps ∨ q.1 = key := by
  cases v with
  | none => exact Or.inl h
  | some s =>
    rw [appendIfTruthy_some] at h
    by_cases hs : s = ""
    · rw [if_pos hs] at h
      exact Or.inl h
    · rw [if_neg hs] at h
      rcases List.mem_append.mp h with h | h
      · exact Or.inl h
      · simp only [List.mem_singleton] at h
        right
        rw [h]

theorem mem_appendBoolParam (ps : List (String × String)) (key : String)
    (b : Option Bool) (q : String × String)
    (h : q ∈ appendBoolParam ps key b) : q ∈ ps ∨ q.1 = key := by
  unfold appendBoolParam at h
  cases b with
  | none => exact Or.inl h
  | some x =>
    rcases List.mem_append.mp h with h | h
    · exact Or.inl h
    · simp only [List.mem_singleton] at h
      right
      rw [h]

/-- C10: `normalizeToCommaSeparated` maps `undefined`, the empty string
and the empty array to `undefined` — so an empty `ids` argument makes the
`ids` query parameter disappear from the outbound user-search request —
while non-empty arrays are comma-joined in element order and non-empty
strings pass through. -/
theorem normalizeToCommaSeparated_spec :
    normalizeToCommaSeparated none = none ∧
    normalizeToCommaSeparated (some (.str "")) = none ∧
    normalizeToCommaSeparated (some (.list [])) = none ∧
    (∀ l : List String, l ≠ [] →
       normalizeToCommaSeparated (some (.list l))
         = some (String.intercalate "," l)) ∧
    (∀ s : String, s ≠ "" →
       normalizeToCommaSeparated (some (.str s)) = some s) ∧
    (∀ domain emails roles disabled future limit offset,
       ∀ ids ∈ ([none, some (StrOrList.str ""), some (StrOrList.list [])] :
           List (Option StrOrList)),
         ∀ q ∈ userSearchParams domain ids emails roles disabled future
             limit offset, q.1 ≠ "ids") := by
  refine ⟨rfl, rfl, rfl, ?_, ?_, ?_⟩
  · intro l hl
    rw [normalizeToCommaSeparated_list, if_pos (List.length_pos.mpr hl)]
  · intro s hs
    rw [normalizeToCommaSeparated_str, if_neg hs]
  · intro domain emails roles disabled future limit offset ids hids q hq heq
    have hnorm : normalizeToCommaSeparated ids = none := by
      simp only [List.mem_cons, List.not_mem_nil, or_false] at hids
      rcases hids with rfl | rfl | rfl <;> rfl
    simp only [userSearchParams, hnorm] at hq
    rcases List.mem_append.mp hq with hq | hq
    · rcases mem_appendBoolParam _ _ _ _ hq with hq | hkey
      · rcases mem_appendBoolParam _ _ _ _ hq with hq | hkey
        · rcases mem_appendIfTruthy _ _ _ _ hq with hq | hkey
          · rcases mem_appendIfTruthy _ _ _ _ hq with hq | hkey
            · have hd : q ∈ [("domain", domain)] := hq
              simp only [List.mem_singleton] at hd
              rw [hd] at heq
              simp at heq
            · rw [heq] at hkey
              exact absurd hkey (by decide)
          · rw [heq] at hkey
            exact absurd hkey (by decide)
        · rw [heq] at hkey
          exact absurd hkey (by decide)
      · rw [heq] at hkey
        exact absurd hkey (by decide)
    · simp only [List.mem_cons, List.not_mem_nil, or_false] at hq
      rcases hq with rfl | rfl <;> simp at heq

/-- C10 witness: a concrete non-empty array joins in order, a non-empty
string passes through, and with `ids = []` the outbound user-search
parameters never carry an `ids` key. -/
theorem normalizeToCommaSeparated_spec_witness :
    normalizeToCommaSeparated (some (.list ["a", "b"])) = some "a,b" ∧
    normalizeToCommaSeparated (some (.str "x,y")) = some "x,y" ∧
    (("ids", "a") ∉ userSearchParams "data.x.org" (some (.list [])) none none
       none none 100 0) :=
  ⟨normalizeToCommaSeparated_spec.2.2.2.1 ["a", "b"] (by decide),
   normalizeToCommaSeparated_spec.2.2.2.2.1 "x,y" (by decide),
   fun h =>
     normalizeToCommaSeparated_spec.2.2.2.2.2 "data.x.org" none none none none
       100 0 (some (.list [])) (by simp) ("ids", "a") h rfl⟩

/-! ### C1: permission upsert matching -/

theorem findIndex_eq_some (p : α → Bool) (l : List α) (i : Nat)
    (h : findIndex p l = some i) :
    ∃ u, l[i]? = some u ∧ p u = true ∧
      ∀ j, j < i → ∀ v, l[j]? = some v → p v = false := by
  induction l generalizing i with
  | nil => simp [findIndex] at h
  | cons a t ih =>
    unfold findIndex at h
    by_cases hp : p a
    · rw [if_pos hp] at h
      injection h with h
      subst h
      exact ⟨a, by simp, hp, fun j hj v _ => absurd hj (Nat.not_lt_zero j)⟩
    · rw [if_neg hp] at h
      cases hf : findIndex p t with
      | none =>
        rw [hf] at h
        simp at h
      | some i' =>
        rw [hf] at h
        simp only [Option.map_some'] at h
        injection h with h
        subst h
        obtain ⟨u, hu, hpu, hprev⟩ := ih i' hf
        refine ⟨u, by simpa using hu, hpu, ?_⟩
        intro j hj v hv
        cases j with
        | zero =>
          simp only [List.getElem?_cons_zero, Option.some_inj] at hv
          subst hv
          exact Bool.eq_false_iff.mpr hp
        | succ j' =>
          exact hprev j' (Nat.lt_of_succ_lt_succ hj) v (by simpa using hv)

theorem findIndex_eq_none (p : α → Bool) (l : List α)
    (h : findIndex p l = none) : ∀ v ∈ l, p v = false := by
  induction l with
  | nil =>
    intro v hv
    simp at hv
  | cons a t ih =>
    unfold findIndex at h
    by_cases hp : p a
    · rw [if_pos hp] at h
      simp at h
    · rw [if_neg hp] at h
      intro v hv
      rcases List.mem_cons.mp hv with rfl | hv
      · exact Bool.eq_false_iff.mpr hp
      · cases hf : findIndex p t with
        | some i =>
          rw [hf] at h
          simp at h
        | none => exact ih hf v hv

/-- C1 counterexample: existing list `[{email:"e"}, {id:"1"}]`, incoming
grant `{id:"1", email:"e", accessLevels:[editor]}` with
`replaceUsers=false`.  The code updates the *earlier* entry that matches
only by email (index 0) and leaves the id-matching entry (index 1)
untouched — id equality does not take precedence over an earlier email
match. -/
theorem upsert_email_beats_id_counterexample :
    upsertUsers
        [⟨none, some "e", []⟩, ⟨some "1", none, []⟩]
        [⟨some "1", some "e", [⟨"editor", "all"⟩]⟩]
      = [⟨some "1", some "e", [⟨"editor", "all"⟩]⟩, ⟨some "1", none, []⟩] ∧
    (upsertUsers
        [⟨none, some "e", []⟩, ⟨some "1", none, []⟩]
        [⟨some "1", some "e", [⟨"editor", "all"⟩]⟩])[1]?
      = some ⟨some "1", none, []⟩ := by
  constructor <;> rfl

/-- C1 (amended): each incoming grant is matched against the pre-merge
existing list by the *disjunctive* first-match rule — the matched entry
is the first existing entry whose `id` equals a truthy incoming `id` *or*
whose `email` equals a truthy incoming `email`, with no precedence of id
matches over earlier email matches; on a match the incoming grant is
shallow-merged over the working list at that position (preserving it),
and on no match it is appended at the end.  The `replaceUsers=false`
merge is the fold of this step. -/
theorem upsertOne_spec (existing updated : List UserGrant)
    (newUser : UserGrant) (hlen : existing.length ≤ updated.length) :
    (∀ i, findIndex (grantMatches newUser) existing = some i →
       ∃ u, updated[i]? = some u ∧
         upsertOne existing updated newUser
           = updated.set i (mergeGrant u newUser) ∧
         ∃ w, existing[i]? = some w ∧ grantMatches newUser w = true ∧
           ∀ j, j < i → ∀ v, existing[j]? = some v →
             grantMatches newUser v = false) ∧
    (findIndex (grantMatches newUser) existing = none →
       upsertOne existing updated newUser = updated ++ [newUser] ∧
       ∀ v ∈ existing, grantMatches newUser v = false) ∧
    (∀ current scope us,
       (mergePermissions current scope (some us) false).users
         = some (upsertUsers (current.users.getD []) us)) := by
  refine ⟨?_, ?_, ?_⟩
  · intro i hf
    obtain ⟨w, hw, hpw, hprev⟩ := findIndex_eq_some _ _ _ hf
    have hi : i < existing.length := by
      by_contra hcon
      rw [List.getElem?_eq_none (Nat.le_of_not_lt hcon)] at hw
      cases hw
    have hi' : i < updated.length := Nat.lt_of_lt_of_le hi hlen
    refine ⟨updated[i], List.getElem?_eq_getElem hi', ?_, w, hw, hpw, hprev⟩
    unfold upsertOne
    rw [hf]
    show (match updated[i]? with
          | some old => updated.set i (mergeGrant old newUser)
          | none => updated)
        = updated.set i (mergeGrant updated[i] newUser)
    rw [List.getElem?_eq_getElem hi']
  · intro hf
    unfold upsertOne
    rw [hf]
    exact ⟨rfl, findIndex_eq_none _ _ hf⟩
  · intro current scope us
    unfold mergePermissions
    split <;> rfl

/-- C1 witness for the amended statement: an incoming grant matching no
existing entry is appended, and the `replaceUsers=false` merge path is
the upsert fold. -/
theorem upsertOne_spec_witness :
    upsertOne ([] : List UserGrant) [] ⟨some "1", some "e", []⟩
      = [] ++ [⟨some "1", some "e", []⟩] ∧
    (mergePermissions ⟨some "private", some []⟩ none
        (some [⟨some "1", some "e", []⟩]) false).users
      = some (upsertUsers [] [⟨some "1", some "e", []⟩]) :=
  ⟨((upsertOne_spec [] [] ⟨some "1", some "e", []⟩ (Nat.le_refl 0)).2.1 rfl).1,
   (upsertOne_spec [] [] ⟨some "1", some "e", []⟩ (Nat.le_refl 0)).2.2
     ⟨some "private", some []⟩ none [⟨some "1", some "e", []⟩]⟩

/-! ### C8: concise projection -/

theorem getField_filterMapKeys (f : String → Option Json) :
    ∀ ks : List String, ks.Nodup → ∀ k,
      getField (ks.filterMap (fun j => (f j).map (fun v => (j, v)))) k
        = if k ∈ ks then f k else none := by
  intro ks
  induction ks with
  | nil =>
    intro _ k
    simp [getField]
  | cons a t ih =>
    intro hnd k
    obtain ⟨ha, hnd'⟩ := List.nodup_cons.mp hnd
    rw [List.filterMap_cons]
    cases hfa : f a with
    | none =>
      simp only [hfa, Option.map_none']
      rw [ih hnd' k]
      by_cases hk : k = a
      · subst hk
        rw [if_neg (fun hmem => ha hmem), if_pos (List.mem_cons_self k t), hfa]
      · have hmem : (k ∈ a :: t) ↔ (k ∈ t) := by
          simp [List.mem_cons, hk]
        exact (if_congr hmem rfl rfl).symm
    | some v =>
      simp only [hfa, Option.map_some']
      by_cases hk : k = a
      · subst hk
        rw [if_pos (List.mem_cons_self k t), hfa]
        simp [getField]
      · simp only [getField, if_neg (fun hh : a = k => hk hh.symm)]
        rw [ih hnd' k]
        have hmem : (k ∈ a :: t) ↔ (k ∈ t) := by
          simp [List.mem_cons, hk]
        exact (if_congr hmem rfl rfl).symm

/-- C8: with `detail=concise` and array data, `formatResponse` replaces
each object-like element by the record keeping exactly those of the five
fields `{id, name, title, description, domain}` present on the element
(all other fields dropped); non-object elements pass through unchanged;
no projection is applied to non-array data or when `detail=detailed`. -/
theorem formatResponse_concise_spec (data : Json) (detail : Detail) :
    formatResponse data detail
      = truncateResponse (detailStep detail data) CHARACTER_LIMIT ∧
    (∀ xs, data = .arr xs →
       detailStep .concise data = .arr (xs.map projectConcise)) ∧
    (∀ item : Json, isObjectLike item = true →
       (∀ k, k ∈ conciseKeys →
          jget (projectConcise item) k = jget item k) ∧
       (∀ k, k ∉ conciseKeys → jget (projectConcise item) k = none)) ∧
    (∀ item : Json, isObjectLike item = false → projectConcise item = item) ∧
    (detailStep .detailed data = data) ∧
    ((∀ xs, data ≠ .arr xs) → detailStep detail data = data) := by
  refine ⟨rfl, ?_, ?_, ?_, ?_, ?_⟩
  · intro xs h
    subst h
    rfl
  · intro item hobj
    have hproj : projectConcise item
        = .obj (conciseKeys.filterMap (fun k =>
            (jget item k).map (fun v => (k, v)))) := by
      unfold projectConcise
      rw [if_pos hobj]
    constructor
    · intro k hk
      rw [hproj]
      show getField (conciseKeys.filterMap (fun j =>
        (jget item j).map (fun v => (j, v)))) k = jget item k
      rw [getField_filterMapKeys (jget item) conciseKeys (by decide) k,
        if_pos hk]
    · intro k hk
      rw [hproj]
      show getField (conciseKeys.filterMap (fun j =>
        (jget item j).map (fun v => (j, v)))) k = none
      rw [getField_filterMapKeys (jget item) conciseKeys (by decide) k,
        if_neg hk]
  · intro item hobj
    unfold projectConcise
    rw [if_neg (by simp [hobj])]
  · cases data <;> rfl
  · intro h
    cases detail with
    | detailed => cases data <;> rfl
    | concise =>
      cases data with
      | arr xs => exact absurd rfl (h xs)
      | null => rfl
      | bool b => rfl
      | num n => rfl
      | str s => rfl
      | obj fs => rfl

/-- The spec's concise-projection example element
`{id:1, name:"n", title:"t", description:"d", domain:"x", extra:"y"}`. -/
def conciseExample : Json :=
  .obj [("id", .num 1), ("name", .str "n"), ("title", .str "t"),
    ("description", .str "d"), ("domain", .str "x"), ("extra", .str "y")]

/-- C8 witness: on the spec's example element the projection keeps `id`
with its original value and drops `extra`. -/
theorem formatResponse_concise_spec_witness :
    jget (projectConcise conciseExample) "id" = jget conciseExample "id" ∧
    jget (projectConcise conciseExample) "extra" = none :=
  ⟨((formatResponse_concise_spec conciseExample .concise).2.2.1
      conciseExample rfl).1 "id" (by decide),
   ((formatResponse_concise_spec conciseExample .concise).2.2.1
      conciseExample rfl).2 "extra" (by decide)⟩

/-! ### C3: truncation is all-or-nothing -/

/-- C3: data whose pretty serialization fits in the 25,000-character limit
passes through `truncateResponse` unchanged; oversized data is wholly
replaced by a marker object — never a truncated JSON prefix — that keeps
every original top-level field and adds `_truncated: true` plus a
non-empty human-readable `_message`. -/
theorem truncateResponse_all_or_nothing (data : Json) :
    ((stringify data).length ≤ CHARACTER_LIMIT →
       truncateResponse data CHARACTER_LIMIT = data) ∧
    (CHARACTER_LIMIT < (stringify data).length →
       ∃ fs, truncateResponse data CHARACTER_LIMIT = .obj fs ∧
         getField fs "_truncated" = some (.bool true) ∧
         (∃ m, getField fs "_message" = some (.str m) ∧ m ≠ "") ∧
         ∀ k, k ≠ "_truncated" → k ≠ "_message" →
           getField fs k = getField (spreadFields data) k) := by
  constructor
  · intro h
    simp only [truncateResponse]
    rw [if_pos h]
  · intro h
    have hn : ¬ (stringify data).length ≤ CHARACTER_LIMIT := Nat.not_le.mpr h
    simp only [truncateResponse]
    rw [if_neg hn]
    refine ⟨_, rfl, ?_, ?_, ?_⟩
    · rw [getField_setField_ne _ "_message" "_truncated" _ (by decide)]
      exact getField_setField_self _ _ _
    · refine ⟨_, getField_setField_self _ _ _, ?_⟩
      intro hemp
      have hlen := congrArg String.length hemp
      simp only [String.length_append] at hlen
      rw [show ("Response truncated at " : String).length = 22 from rfl,
        show ("" : String).length = 0 from rfl] at hlen
      omega
    · intro k h1 h2
      rw [getField_setField_ne _ "_message" k _ h2,
        getField_setField_ne _ "_truncated" k _ h1]

/-- C3 witness: a small object is returned unchanged. -/
theorem truncateResponse_all_or_nothing_witness :
    truncateResponse (.obj [("a", .num 1)]) CHARACTER_LIMIT
      = .obj [("a", .num 1)] :=
  (truncateResponse_all_or_nothing (.obj [("a", .num 1)])).1 (by
    simp only [stringify, stringifyAux, stringifyEntries]
    decide)

/-! ### C2: the serialized size bound is violated by the code -/

/-- A 26,000-character string of `x`s. -/
def xBlock : String := String.mk (List.replicate 26000 'x')

/-- A payload whose pretty serialization exceeds the character limit:
`{"a": "xx...x"}` with 26,000 `x`s. -/
def oversizedInput : Json := .obj [("a", Json.str xBlock)]

theorem escList_replicate_x (n : Nat) :
    (escList (List.replicate n 'x')).length = n := by
  induction n with
  | zero => rfl
  | succ m ih =>
    rw [List.replicate_succ]
    show (escapeChar 'x' ++ escList (List.replicate m 'x')).length = m + 1
    rw [String.length_append, ih]
    rw [show (escapeChar 'x').length = 1 from rfl]
    omega

theorem jsonEscape_xBlock_length : (jsonEscape xBlock).length = 26000 :=
  escList_replicate_x 26000

theorem stringifyAux_str_xBlock_length (d : Nat) :
    (stringifyAux d (.str xBlock)).length = 26002 := by
  simp only [stringifyAux]
  simp only [String.length_append]
  rw [jsonEscape_xBlock_length,
    show ("\"" : String).length = 1 from rfl]

theorem stringifyEntries_length_ge (d : Nat) (k : String) (v : Json)
    (rest : List (String × Json)) :
    (stringifyAux d v).length ≤ (stringifyEntries d (k, v) rest).length := by
  cases rest with
  | nil =>
    simp only [stringifyEntries]
    simp only [String.length_append]
    omega
  | cons g gs =>
    simp only [stringifyEntries]
    simp only [String.length_append]
    omega

theorem stringifyAux_obj_length_ge (d : Nat) (f : String × Json)
    (rest : List (String × Json)) :
    (stringifyEntries (d + 1) f rest).length
      ≤ (stringifyAux d (.obj (f :: rest))).length := by
  simp only [stringifyAux]
  simp only [String.length_append]
  omega

theorem stringify_obj_length_ge (f : String × Json)
    (rest : List (String × Json)) :
    (stringifyEntries 1 f rest).length ≤ (stringify (.obj (f :: rest))).length := by
  have h := stringifyAux_obj_length_ge 0 f rest
  norm_num at h
  simpa [stringify] using h

theorem oversized_stringify_length :
    26002 ≤ (stringify oversizedInput).length := by
  have h1 := stringify_obj_length_ge ("a", Json.str xBlock) []
  have h2 := stringifyEntries_length_ge 1 "a" (Json.str xBlock) []
  have h3 := stringifyAux_str_xBlock_length 1
  simp only [oversizedInput]
  omega

/-- C2 (code bug): the oversized payload's serialization exceeds the
25,000-character limit, and the value `truncateResponse` returns for it
*also* serializes beyond the limit — the marker object spreads all
original fields back in, so the output is never size-bounded.  (The
`truncated` substring the source computes is dead code.) -/
theorem truncateResponse_size_bound_violated :
    CHARACTER_LIMIT < (stringify oversizedInput).length ∧
    CHARACTER_LIMIT
      < (stringify (truncateResponse oversizedInput CHARACTER_LIMIT)).length := by
  have hbig := oversized_stringify_length
  have hCL : CHARACTER_LIMIT = 25000 := rfl
  have hn : ¬ (stringify oversizedInput).length ≤ CHARACTER_LIMIT := by
    omega
  constructor
  · omega
  · rw [show truncateResponse oversizedInput CHARACTER_LIMIT
        = Json.obj [("a", Json.str xBlock), ("_truncated", Json.bool true),
            ("_message", Json.str ("Response truncated at "
              ++ toString CHARACTER_LIMIT ++ " characters. Original length: "
              ++ toString (stringify oversizedInput).length))] from by
      simp only [truncateResponse]
      rw [if_neg hn]
      rfl]
    have h1 := stringify_obj_length_ge ("a", Json.str xBlock)
      [("_truncated", Json.bool true),
       ("_message", Json.str ("Response truncated at "
         ++ toString CHARACTER_LIMIT ++ " characters. Original length: "
         ++ toString (stringify oversizedInput).length))]
    have h2 := stringifyEntries_length_ge 1 "a" (Json.str xBlock)
      [("_truncated", Json.bool true),
       ("_message", Json.str ("Response truncated at "
         ++ toString CHARACTER_LIMIT ++ " characters. Original length: "
         ++ toString (stringify oversizedInput).length))]
    have h3 := stringifyAux_str_xBlock_length 1
    omega

/-! ### C6 and C7: schedule resolver -/

/-- C6: with neither a truthy `fxf` nor a truthy `assetName` the resolver
fails with `InvalidArguments` (before any domain check or remote call);
with a truthy `fxf` the catalog is never queried — the result is
identical under any two catalog oracles — and every successful result is
a single `ScheduleSummary`, not a list. -/
theorem resolveSchedule_modes (allowed : List String)
    (catalog catalog2 : String → Except String (List Asset))
    (sched : String → Except String Json) (fmtDate : Json → String)
    (domain : String) (fxf assetName : Option String) :
    (optTruthy fxf = false → optTruthy assetName = false →
       resolveSchedule allowed catalog sched fmtDate domain fxf assetName
         = .error .invalidArguments) ∧
    (optTruthy fxf = true →
       resolveSchedule allowed catalog sched fmtDate domain fxf assetName
         = resolveSchedule allowed catalog2 sched fmtDate domain fxf assetName ∧
       ∀ r, resolveSchedule allowed catalog sched fmtDate domain fxf assetName
           = .ok r → ∃ s, r = .single s) := by
  constructor
  · intro h1 h2
    simp [resolveSchedule, h1, h2]
  · intro h
    constructor
    · simp only [resolveSchedule, h, Bool.not_true, Bool.false_and,
        Bool.false_eq_true, if_false, if_true]
    · intro r hr
      simp only [resolveSchedule, h, Bool.not_true, Bool.false_and,
        Bool.false_eq_true, if_false, if_true] at hr
      cases hv : validateDomain allowed domain with
      | error e =>
        simp only [hv] at hr
        exact absurd hr (by simp)
      | ok u =>
        simp only [hv] at hr
        cases hs : sched (optToStr fxf) with
        | error e =>
          simp only [hs] at hr
          exact absurd hr (by simp)
        | ok data =>
          simp only [hs] at hr
          cases hfm : formatScheduleResponse fmtDate data none with
          | error e =>
            simp only [hfm] at hr
            exact absurd hr (by simp)
          | ok s0 =>
            simp only [hfm] at hr
            refine ⟨s0, ?_⟩
            injection hr with hr
            exact hr.symm

/-- A catalog oracle returning no results. -/
def catEmpty : String → Except String (List Asset) := fun _ => .ok []

/-- A catalog oracle failing with a transport error. -/
def catDown : String → Except String (List Asset) :=
  fun _ => .error "connection refused"

/-- A schedule oracle always returning an enabled daily schedule. -/
def schedDaily : String → Except String Json :=
  fun _ => .ok (.obj [("cadence", .str "Daily"), ("enabled", .bool true)])

/-- A fixed date renderer standing in for `toLocaleDateString`. -/
def fmtDateStub : Json → String := fun _ => "1/1/2024"

/-- C6 witness: with `fxf = "abcd-1234"` the result is unchanged when the
catalog oracle is swapped for a failing one, and with neither argument
the resolver fails with `InvalidArguments`. -/
theorem resolveSchedule_modes_witness :
    resolveSchedule [] catEmpty schedDaily fmtDateStub "data.x.org"
        (some "abcd-1234") none
      = resolveSchedule [] catDown schedDaily fmtDateStub "data.x.org"
        (some "abcd-1234") none ∧
    resolveSchedule [] catEmpty schedDaily fmtDateStub "data.x.org" none none
      = .error .invalidArguments :=
  ⟨((resolveSchedule_modes [] catEmpty catDown schedDaily fmtDateStub
      "data.x.org" (some "abcd-1234") none).2 (by decide)).1,
   (resolveSchedule_modes [] catEmpty catDown schedDaily fmtDateStub
      "data.x.org" none none).1 rfl rfl⟩

theorem scheduleItem_sched_error (sched : String → Except String Json)
    (fmtDate : Json → String) (asset : Asset) (e : String)
    (he : sched (optToStr (strOr asset.resourceId asset.id)) = .error e) :
    scheduleItem sched fmtDate asset
      = ⟨⟨(strOr asset.resourceName asset.name).map Json.str,
          (strOr asset.resourceId asset.id).map Json.str⟩,
         none, none, some ("Unable to fetch schedule: " ++ e)⟩ := by
  simp only [scheduleItem, he]

theorem scheduleItem_sched_ok (sched : String → Except String Json)
    (fmtDate : Json → String) (asset : Asset) (data : Json)
    (sum : ScheduleSummary)
    (hok : sched (optToStr (strOr asset.resourceId asset.id)) = .ok data)
    (hfm : formatScheduleResponse fmtDate data
        (some ⟨(strOr asset.resourceName asset.name).map Json.str,
               (strOr asset.resourceId asset.id).map Json.str⟩) = .ok sum) :
    scheduleItem sched fmtDate asset = sum := by
  simp only [scheduleItem, hok, hfm]

/-- C7: in search mode (no `fxf`, truthy `assetName`) with the catalog
returning `results` that pass the dataset filter, the call as a whole
succeeds: with two or more dataset matches the result is the ordered
sequence of per-match summaries, with exactly one it is that summary
unwrapped; a match whose schedule fetch fails contributes a summary with
`schedule: null` and a non-empty `error` while a match whose fetch
succeeds with a truthy payload contributes a populated schedule and no
`error`. -/
theorem resolveSchedule_partial_failure (allowed : List String)
    (catalog : String → Except String (List Asset))
    (sched : String → Except String Json) (fmtDate : Json → String)
    (domain : String) (assetName : String) (hname : assetName ≠ "")
    (hdom : validateDomain allowed domain = .ok ())
    (results : List Asset) (hcat : catalog assetName = .ok results)
    (hres : results ≠ []) (hds : results.filter isDatasetAsset ≠ []) :
    (2 ≤ (results.filter isDatasetAsset).length →
       resolveSchedule allowed catalog sched fmtDate domain none (some assetName)
         = .ok (.many ((results.filter isDatasetAsset).map
             (scheduleItem sched fmtDate)))) ∧
    (∀ a, results.filter isDatasetAsset = [a] →
       resolveSchedule allowed catalog sched fmtDate domain none (some assetName)
         = .ok (.single (scheduleItem sched fmtDate a))) ∧
    (∀ asset e, sched (optToStr (strOr asset.resourceId asset.id)) = .error e →
       (scheduleItem sched fmtDate asset).schedule = none ∧
       (scheduleItem sched fmtDate asset).error
         = some ("Unable to fetch schedule: " ++ e) ∧
       ("Unable to fetch schedule: " ++ e) ≠ "") ∧
    (∀ asset data sum,
       sched (optToStr (strOr asset.resourceId asset.id)) = .ok data →
       jsonTruthy data = true →
       formatScheduleResponse fmtDate data
           (some ⟨(strOr asset.resourceName asset.name).map Json.str,
                  (strOr asset.resourceId asset.id).map Json.str⟩) = .ok sum →
       scheduleItem sched fmtDate asset = sum ∧
       sum.schedule = some (extractSchedule data) ∧ sum.error = none) := by
  have hat : optTruthy (some assetName) = true := by
    simp [optTruthy, hname]
  have hlen0 : ¬ (results.length = 0) := by
    simpa [List.length_eq_zero] using hres
  have hds0 : ¬ ((results.filter isDatasetAsset).length = 0) := by
    simpa [List.length_eq_zero] using hds
  have hfxf : optTruthy (none : Option String) = false := rfl
  refine ⟨?_, ?_, ?_, ?_⟩
  · intro h2
    cases hsum : results.filter isDatasetAsset with
    | nil => exact absurd hsum hds
    | cons a rest =>
      cases rest with
      | nil =>
        rw [hsum] at h2
        simp at h2
      | cons b t =>
        simp [resolveSchedule, hfxf, hat, hdom, hcat, hlen0, hsum, optToStr]
  · intro a ha
    simp [resolveSchedule, hfxf, hat, hdom, hcat, hlen0, ha, optToStr]
  · intro asset e he
    rw [scheduleItem_sched_error sched fmtDate asset e he]
    refine ⟨rfl, rfl, ?_⟩
    intro hemp
    have hlen := congrArg String.length hemp
    rw [String.length_append] at hlen
    rw [show ("Unable to fetch schedule: " : String).length = 26 from rfl,
      show ("" : String).length = 0 from rfl] at hlen
    omega
  · intro asset data sum hok htruthy hfm
    have hitem := scheduleItem_sched_ok sched fmtDate asset data sum hok hfm
    simp only [formatScheduleResponse, htruthy, Bool.not_true,
      Bool.false_eq_true, if_false] at hfm
    cases hg : generateScheduleSummary fmtDate (extractSchedule data) with
    | error e2 =>
      simp only [hg] at hfm
      exact absurd hfm (by simp)
    | ok summ =>
      simp only [hg] at hfm
      injection hfm with hfm
      refine ⟨hitem, ?_, ?_⟩ <;> rw [← hfm]

/-- A catalog match of dataset type named "Crime Data". -/
def assetD1 : Asset :=
  ⟨some "dataset", some "Crime Data", some "aaaa-1111", none, none, none⟩

/-- A second catalog match of dataset type named "Crime Data 2". -/
def assetD2 : Asset :=
  ⟨some "dataset", some "Crime Data 2", some "bbbb-2222", none, none, none⟩

/-- A catalog oracle returning the two dataset matches. -/
def catTwoDatasets : String → Except String (List Asset) :=
  fun _ => .ok [assetD1, assetD2]

/-- A schedule oracle that succeeds for the first dataset's id and fails
for every other id. -/
def schedFirstOnly : String → Except String Json :=
  fun f =>
    if f = "aaaa-1111" then
      .ok (.obj [("cadence", .str "Daily"), ("enabled", .bool true)])
    else .error "HTTP 404"

/-- C7 witness: two dataset matches where the second's schedule fetch
fails — the call succeeds with a 2-element ordered sequence, and the
second item carries `schedule: null` plus the per-item error message. -/
theorem resolveSchedule_partial_failure_witness :
    resolveSchedule [] catTwoDatasets schedFirstOnly fmtDateStub "data.x.org"
        none (some "crime")
      = .ok (.many (([assetD1, assetD2].filter isDatasetAsset).map
          (scheduleItem schedFirstOnly fmtDateStub))) ∧
    (scheduleItem schedFirstOnly fmtDateStub assetD2).schedule = none ∧
    (scheduleItem schedFirstOnly fmtDateStub assetD2).error
      = some ("Unable to fetch schedule: " ++ "HTTP 404") :=
  ⟨(resolveSchedule_partial_failure [] catTwoDatasets schedFirstOnly
      fmtDateStub "data.x.org" "crime" (by decide) rfl [assetD1, assetD2] rfl
      (by decide) (by decide)).1 (by decide),
   ((resolveSchedule_partial_failure [] catTwoDatasets schedFirstOnly
      fmtDateStub "data.x.org" "crime" (by decide) rfl [assetD1, assetD2] rfl
      (by decide) (by decide)).2.2.1 assetD2 "HTTP 404" rfl).1,
   ((resolveSchedule_partial_failure [] catTwoDatasets schedFirstOnly
      fmtDateStub "data.x.org" "crime" (by decide) rfl [assetD1, assetD2] rfl
      (by decide) (by decide)).2.2.1 assetD2 "HTTP 404" rfl).2.1⟩

end Socrata
